import Mathlib

/-!
Verification of the branch-snapshot diffing and sync-run logic of the
edgetunnel mirror script (src/sync.js).  JavaScript objects mapping branch
names to commit hashes are modelled as association lists; text is split
with structural functions over the character list of a string, matching
the single-character separators used by the script; the external
commit-timestamp lookup is an oracle parameter returning none on failure;
the run orchestrator is modelled as a pure function from its effect
results to a log of the actions it performs.
-/

/-- A branch-name to commit-hash mapping (a JS object in the source). -/
abbrev Snapshot := List (String × String)

/-- Property access on a snapshot object: some value, or none for a
missing key (JS undefined). -/
def lookupSnap : Snapshot → String → Option String
  | [], _ => none
  | (k, v) :: rest, b => if k = b then some v else lookupSnap rest b

/-- The keys of a snapshot, in insertion order. -/
def snapKeys (s : Snapshot) : List String := s.map Prod.fst

/-- JS falsiness of a looked-up hash: undefined and the empty string are
falsy, every other string is truthy. -/
def jsFalsy : Option String → Bool
  | none => true
  | some s => s == ""

/-- Property access where the source guarantees the key is present
(newCommits[branch] for branch among the object keys). -/
def objGet (s : Snapshot) (k : String) : String := (lookupSnap s k).getD ("")

/-- One entry of the change list built by getChangedBranches.  oldHash is
none for the JS null/undefined cases; the absent isNew field of the first
loop is the falsy value false. -/
structure ChangeRecord where
  branch : String
  oldHash : Option String
  newHash : String
  commitTime : Int
  url : String
  isNew : Bool
deriving DecidableEq

/-- The branch view URL built in the source. -/
def branchUrl (branch : String) : String :=
  "https://github.com/cmliu/edgetunnel/tree/" ++ branch

/-- getBranchCommitTime: the external lookup lk gives the commit time in
milliseconds, or none when the GitHub API call fails; failure is caught
and the epoch sentinel new Date(0) is returned. -/
def getBranchCommitTime (lk : String → String → Option Int) (branch hash : String) : Int :=
  match lk branch hash with
  | some t => t
  | none => 0

/-- First loop of getChangedBranches: for each entry of the current
snapshot, push a record when the previous hash differs (strict
inequality, so a missing previous hash also counts). -/
def updatedRecords (lk : String → String → Option Int) (old new : Snapshot) :
    List ChangeRecord :=
  new.filterMap fun p =>
    if lookupSnap old p.1 = some p.2 then none
    else some { branch := p.1, oldHash := lookupSnap old p.1, newHash := p.2,
                commitTime := getBranchCommitTime lk p.1 p.2,
                url := branchUrl p.1, isNew := false }

/-- Second loop of getChangedBranches: for each key of the current
snapshot whose previous hash is falsy, push a record flagged isNew. -/
def newBranchRecords (lk : String → String → Option Int) (old new : Snapshot) :
    List ChangeRecord :=
  new.filterMap fun p =>
    if jsFalsy (lookupSnap old p.1) then
      some { branch := p.1, oldHash := none, newHash := objGet new p.1,
             commitTime := getBranchCommitTime lk p.1 (objGet new p.1),
             url := branchUrl p.1, isNew := true }
    else none

/-- The sort comparator of the source: ascending commit time. -/
def timeLE (a c : ChangeRecord) : Prop := a.commitTime ≤ c.commitTime

instance : DecidableRel timeLE := fun a c => Int.decLe a.commitTime c.commitTime

instance : IsTotal ChangeRecord timeLE := ⟨fun a c => Int.le_total a.commitTime c.commitTime⟩

instance : IsTrans ChangeRecord timeLE := ⟨fun _ _ _ h h' => le_trans h h'⟩

/-- getChangedBranches: both loops, then a stable ascending sort by
commit time (Array.prototype.sort with a consistent comparator). -/
def getChangedBranches (lk : String → String → Option Int) (old new : Snapshot) :
    List ChangeRecord :=
  List.insertionSort timeLE (updatedRecords lk old new ++ newBranchRecords lk old new)

/-- JS String.prototype.split with a single-character separator, on the
character list of the string. -/
def chSplit (sep : Char) : List Char → List (List Char)
  | [] => [[]]
  | c :: cs =>
      if c = sep then [] :: chSplit sep cs
      else
        match chSplit sep cs with
        | [] => [[c]]
        | w :: ws => (c :: w) :: ws

/-- JS String.prototype.trim: strip whitespace from both ends. -/
def chTrim (l : List Char) : List Char :=
  ((l.dropWhile Char.isWhitespace).reverse.dropWhile Char.isWhitespace).reverse

/-- JS String.prototype.replace with a string pattern: replace the first
occurrence only. -/
def replaceFirstL (pat repl : List Char) : List Char → List Char
  | [] => []
  | c :: rest =>
      if pat.isPrefixOf (c :: rest) then repl ++ (c :: rest).drop pat.length
      else c :: replaceFirstL pat repl rest

/-- One line of the ls-remote output: hash TAB ref.  Destructuring takes
the first two tab-separated fields; a line with no tab leaves ref
undefined and the replace call on it throws (none).  Returns the
(branch, hash) pair assigned into the commits object. -/
def parseLine (l : List Char) : Option (String × String) :=
  match chSplit ('\t') l with
  | _ :: [] => none
  | hash :: ref :: _ =>
      some (String.mk (replaceFirstL (("refs/heads/").data) [] ref), String.mk hash)
  | [] => none

/-- JS object assignment commits[branch] = hash: replace the value in
place when the key exists, append otherwise. -/
def insertKV : Snapshot → String → String → Snapshot
  | [], k, v => [(k, v)]
  | (k', v') :: rest, k, v =>
      if k' = k then (k', v) :: rest else (k', v') :: insertKV rest k v

/-- Processing of one line inside parseCommitsData's forEach. -/
def parseStep (acc : Snapshot) (l : List Char) : Except Unit Snapshot :=
  match parseLine l with
  | some p => Except.ok (insertKV acc p.1 p.2)
  | none => Except.error ()

/-- parseCommitsData: split at newlines, drop blank lines, fold each
line into the commits object; a line without a tab throws. -/
def parseCommitsData (text : String) : Except Unit Snapshot :=
  ((chSplit ('\n') text.data).filter (fun l => !(chTrim l).isEmpty)).foldlM parseStep []

/-- Pure fold of parsed (branch, hash) pairs into a snapshot. -/
def insertAll (s : Snapshot) (ps : List (String × String)) : Snapshot :=
  ps.foldl (fun acc p => insertKV acc p.1 p.2) s

/-- The binding the last matching pair of ps gives to key b. -/
def lastFor (ps : List (String × String)) (b : String) : Option String :=
  (ps.reverse.find? (fun p => p.1 == b)).map Prod.snd

/-- The timestamp oracle with the calls for one branch failing. -/
def overrideFail (lk : String → String → Option Int) (b : String) :
    String → String → Option Int :=
  fun br h => if br = b then none else lk br h

/-- Replace the commit time of the records of branch b by the epoch
sentinel, leaving every other record unchanged. -/
def zeroOut (b : String) (r : ChangeRecord) : ChangeRecord :=
  if r.branch = b then { r with commitTime := 0 } else r

/-- The actions performed by one run of the script. -/
structure RunLog where
  mirrorAttempted : Bool
  persisted : Option String
  sentMessages : List String
  exitCode : Nat
deriving DecidableEq

/-- The failure notification text of the catch-all handler in main. -/
def failureMessage (e : String) : String := "❌ 同步失败: " ++ e

/-- The Telegram message built in main; fmt abstracts the localized
toLocaleString timestamp formatting. -/
def buildMessage (fmt : Int → String) (changed : List ChangeRecord) : String :=
  let header := "✅ <b>edgetunnel 仓库已更新</b>\n\n"
  if changed.isEmpty then
    header ++ "检测到变化但无法确定具体更新的分支。\n\n"
  else
    header ++ "<b>更新的分支 (按更新时间排序):</b>\n" ++
      String.join (changed.map fun r =>
        let shortOld := match r.oldHash with
          | some h => h.take 7
          | none => "无"
        let shortNew := r.newHash.take 7
        (if r.isNew then "🆕 <b>" ++ r.branch ++ "</b> (新增分支)\n"
         else "🔁 <b>" ++ r.branch ++ "</b>\n   " ++ shortOld ++ " → " ++ shortNew ++ "\n") ++
        "   🕐 " ++ fmt r.commitTime ++ "\n   🔗 <a href=\"" ++ r.url ++
        "\">查看分支</a>\n\n")

/-- lastText ? parseCommitsData(lastText) : empty object. -/
def parsePrevious (lastText : String) : Except Unit Snapshot :=
  if lastText == "" then Except.ok [] else parseCommitsData lastText

/-- The run orchestrator (the async main IIFE), as a pure function of its
effect results: fetched is the git ls-remote outcome, mirrorResult the
clone outcome, lastText the persisted previous snapshot text.  The log
records whether the clone was attempted, what was written to
last_commit.txt, the notification texts sent, and the exit code; the
repo-update-time lookup feeds only a console log and is omitted. -/
def mainModel (lk : String → String → Option Int) (fmt : Int → String)
    (fetched : Except String String) (mirrorResult : Except String Unit)
    (lastText : String) : RunLog :=
  match fetched with
  | Except.error e => ⟨false, none, [failureMessage e], 1⟩
  | Except.ok latestText =>
    if latestText == lastText then ⟨false, none, [], 0⟩
    else
      match parsePrevious lastText, parseCommitsData latestText with
      | Except.ok oldCommits, Except.ok newCommits =>
        let changed := getChangedBranches lk oldCommits newCommits
        match mirrorResult with
        | Except.error e => ⟨true, none, [failureMessage e], 1⟩
        | Except.ok _ => ⟨true, some latestText, [buildMessage fmt changed], 0⟩
      | _, _ => ⟨false, none, [failureMessage ("Cannot read properties of undefined")], 1⟩

/-- Timestamp oracle on which every lookup fails. -/
def lk0 : String → String → Option Int := fun _ _ => none

/-- Timestamp oracle on which every lookup succeeds with a fixed time. -/
def lk1 : String → String → Option Int := fun _ _ => some 5

/-- Trivial timestamp formatter for concrete evaluations. -/
def fmt0 : Int → String := fun _ => ""

/-- Looking a key up after a JS object assignment: the assigned key gets
the new value, every other key is unchanged. -/
theorem lookup_insertKV (s : Snapshot) (k v b : String) :
    lookupSnap (insertKV s k v) b = if k = b then some v else lookupSnap s b := by
  induction s with
  | nil => simp [insertKV, lookupSnap]
  | cons p rest ih =>
    obtain ⟨k', v'⟩ := p
    by_cases hk : k' = k
    · subst hk
      by_cases hb : k' = b <;> simp [insertKV, lookupSnap, hb]
    · by_cases hb : k' = b
      · subst hb
        have hkb : ¬k = k' := fun h => hk h.symm
        simp [insertKV, hk, lookupSnap, hkb]
      · simp [insertKV, hk, lookupSnap, hb, ih]

/-- The keys after an assignment are the old keys plus the assigned key. -/
theorem mem_snapKeys_insertKV (s : Snapshot) (k v c : String) :
    c ∈ snapKeys (insertKV s k v) ↔ c ∈ snapKeys s ∨ c = k := by
  induction s with
  | nil => simp [insertKV, snapKeys]
  | cons p rest ih =>
    obtain ⟨k', v'⟩ := p
    by_cases hk : k' = k
    · subst hk
      simp [insertKV, snapKeys, List.mem_cons]
      tauto
    · simp [insertKV, hk, snapKeys, List.mem_cons] at ih ⊢
      tauto

/-- JS object assignment keeps the keys of the object unique. -/
theorem nodup_snapKeys_insertKV (s : Snapshot) (k v : String)
    (h : (snapKeys s).Nodup) : (snapKeys (insertKV s k v)).Nodup := by
  induction s with
  | nil => simp [insertKV, snapKeys]
  | cons p rest ih =>
    obtain ⟨k', v'⟩ := p
    rw [snapKeys, List.map_cons, List.nodup_cons] at h
    obtain ⟨hnm, hnd⟩ := h
    by_cases hk : k' = k
    · subst hk
      have hsame : snapKeys (insertKV ((k', v') :: rest) k' v) = snapKeys ((k', v') :: rest) := by
        simp [insertKV, snapKeys]
      rw [hsame, snapKeys, List.map_cons, List.nodup_cons]
      exact ⟨hnm, hnd⟩
    · rw [insertKV]
      simp only [if_neg hk]
      rw [snapKeys, List.map_cons, List.nodup_cons]
      refine ⟨?_, ih hnd⟩
      rw [show List.map Prod.fst (insertKV rest k v) = snapKeys (insertKV rest k v) from rfl,
        mem_snapKeys_insertKV]
      rintro (hin | rfl)
      · exact hnm hin
      · exact hk rfl

/-- In a snapshot with unique keys, every stored pair is found by lookup. -/
theorem lookup_of_mem_nodup {s : Snapshot} {k v : String}
    (hnd : (snapKeys s).Nodup) (hm : (k, v) ∈ s) : lookupSnap s k = some v := by
  induction s with
  | nil => cases hm
  | cons p rest ih =>
    obtain ⟨k', v'⟩ := p
    rw [snapKeys, List.map_cons, List.nodup_cons] at hnd
    rcases List.mem_cons.mp hm with heq | htail
    · cases heq
      simp [lookupSnap]
    · have hk : ¬k' = k := by
        rintro rfl
        have hmem : k' ∈ List.map Prod.fst rest := List.mem_map.mpr ⟨(k', v), htail, rfl⟩
        exact hnd.1 hmem
      simp [lookupSnap, hk]
      exact ih hnd.2 htail

/-- A successful lookup comes from a stored pair. -/
theorem mem_of_lookup {s : Snapshot} {k v : String}
    (h : lookupSnap s k = some v) : (k, v) ∈ s := by
  induction s with
  | nil => simp [lookupSnap] at h
  | cons p rest ih =>
    obtain ⟨k', v'⟩ := p
    by_cases hk : k' = k
    · subst hk
      simp [lookupSnap] at h
      subst h
      exact List.mem_cons_self _ _
    · simp [lookupSnap, hk] at h
      exact List.mem_cons_of_mem _ (ih h)

/-- Folding one more pair into a snapshot. -/
theorem insertAll_cons (s : Snapshot) (p : String × String) (ps : List (String × String)) :
    insertAll s (p :: ps) = insertAll (insertKV s p.1 p.2) ps := rfl

/-- Folding pairs into a snapshot with unique keys keeps them unique. -/
theorem nodup_snapKeys_insertAll (ps : List (String × String)) :
    ∀ s : Snapshot, (snapKeys s).Nodup → (snapKeys (insertAll s ps)).Nodup := by
  induction ps with
  | nil => intro s h; exact h
  | cons p rest ih =>
    intro s h
    rw [insertAll_cons]
    exact ih _ (nodup_snapKeys_insertKV s p.1 p.2 h)

/-- Lookup after folding pairs into a snapshot: the last pair for the key
wins, and the original snapshot answers only when no pair mentions it. -/
theorem lookup_insertAll (ps : List (String × String)) :
    ∀ (s : Snapshot) (b : String),
      lookupSnap (insertAll s ps) b = (lastFor ps b).or (lookupSnap s b) := by
  induction ps with
  | nil => intro s b; simp [insertAll, lastFor, Option.none_or]
  | cons p rest ih =>
    intro s b
    rw [insertAll_cons, ih]
    cases hfind : rest.reverse.find? (fun q => q.1 == b) with
    | some q =>
      have h1 : lastFor rest b = some q.2 := by simp [lastFor, hfind]
      have h2 : lastFor (p :: rest) b = some q.2 := by
        simp [lastFor, List.reverse_cons, List.find?_append, hfind]
      simp [h1, h2, Option.or]
    | none =>
      have h1 : lastFor rest b = none := by simp [lastFor, hfind]
      rw [h1, Option.none_or, lookup_insertKV]
      by_cases hb : p.1 = b
      · have h2 : lastFor (p :: rest) b = some p.2 := by
          simp [lastFor, List.reverse_cons, List.find?_append, hfind, List.find?, hb]
        simp [h2, hb, Option.or]
      · have h2 : lastFor (p :: rest) b = none := by
          simp [lastFor, List.reverse_cons, List.find?_append, hfind, List.find?,
            beq_eq_false_iff_ne.mpr hb]
        simp [h2, hb, Option.none_or]

/-- When every line parses, the forEach fold returns the snapshot built
from the parsed pairs in line order. -/
theorem parse_fold (lines : List (List Char)) :
    ∀ acc : Snapshot, (∀ l ∈ lines, (parseLine l).isSome) →
      List.foldlM parseStep acc lines = Except.ok (insertAll acc (lines.filterMap parseLine)) := by
  induction lines with
  | nil => intro acc _; rfl
  | cons l ls ih =>
    intro acc h
    obtain ⟨p, hp⟩ := Option.isSome_iff_exists.mp (h l (List.mem_cons_self _ _))
    rw [List.foldlM_cons]
    have hstep : parseStep acc l = Except.ok (insertKV acc p.1 p.2) := by
      simp [parseStep, hp]
    rw [hstep]
    show List.foldlM parseStep (insertKV acc p.1 p.2) ls = _
    rw [ih _ (fun x hx => h x (List.mem_cons_of_mem _ hx))]
    simp [List.filterMap_cons, hp, insertAll_cons]

/-- Splitting never yields an empty list of fields. -/
theorem chSplit_ne_nil (sep : Char) (l : List Char) : chSplit sep l ≠ [] := by
  induction l with
  | nil => simp [chSplit]
  | cons c cs ih =>
    rw [chSplit]
    by_cases hc : c = sep
    · simp [hc]
    · simp only [if_neg hc]
      cases h : chSplit sep cs with
      | nil => simp
      | cons w ws => simp

/-- A line containing a tab splits into at least two fields, so the
destructured ref is defined and the line parses. -/
theorem parseLine_isSome_of_tab {l : List Char} (h : ('\t') ∈ l) :
    (parseLine l).isSome := by
  have hsplit : ∃ a c t, chSplit ('\t') l = a :: c :: t := by
    induction l with
    | nil => cases h
    | cons x xs ih =>
      rw [chSplit]
      by_cases hx : x = '\t'
      · simp only [if_pos hx]
        cases hs : chSplit ('\t') xs with
        | nil => exact absurd hs (chSplit_ne_nil _ _)
        | cons w ws => exact ⟨[], w, ws, rfl⟩
      · have hmem : ('\t') ∈ xs := by
          rcases List.mem_cons.mp h with h1 | h1
          · exact absurd h1.symm hx
          · exact h1
        obtain ⟨a, c, t, hs⟩ := ih hmem
        simp only [if_neg hx, hs]
        exact ⟨x :: a, c, t, rfl⟩
  obtain ⟨a, c, t, hs⟩ := hsplit
  simp [parseLine, hs]

/-- The first loop of the diff, with the oracle failing on branch b, is
the unfailing loop with the records of b given the sentinel time. -/
theorem updated_override (lk : String → String → Option Int) (b : String)
    (old new : Snapshot) :
    updatedRecords (overrideFail lk b) old new =
      (updatedRecords lk old new).map (zeroOut b) := by
  rw [updatedRecords, updatedRecords, List.map_filterMap]
  congr 1
  funext p
  by_cases hc : lookupSnap old p.1 = some p.2
  · simp [hc]
  · by_cases hb : p.1 = b
    · subst hb
      simp [hc, zeroOut, getBranchCommitTime, overrideFail]
    · simp [hc, zeroOut, getBranchCommitTime, overrideFail, hb]

/-- The second loop of the diff, with the oracle failing on branch b, is
the unfailing loop with the records of b given the sentinel time. -/
theorem newBranch_override (lk : String → String → Option Int) (b : String)
    (old new : Snapshot) :
    newBranchRecords (overrideFail lk b) old new =
      (newBranchRecords lk old new).map (zeroOut b) := by
  rw [newBranchRecords, newBranchRecords, List.map_filterMap]
  congr 1
  funext p
  by_cases hc : jsFalsy (lookupSnap old p.1)
  · by_cases hb : p.1 = b
    · subst hb
      simp [hc, zeroOut, getBranchCommitTime, overrideFail]
    · simp [hc, zeroOut, getBranchCommitTime, overrideFail, hb]
  · simp [hc]

/-- Every record of the first loop names a branch of the new snapshot. -/
theorem branch_of_mem_updated {lk : String → String → Option Int}
    {old new : Snapshot} {r : ChangeRecord}
    (h : r ∈ updatedRecords lk old new) : ∃ p ∈ new, r.branch = p.1 := by
  rw [updatedRecords, List.mem_filterMap] at h
  obtain ⟨p, hp, hf⟩ := h
  by_cases hc : lookupSnap old p.1 = some p.2
  · simp [hc] at hf
  · simp [hc] at hf
    exact ⟨p, hp, by rw [← hf]⟩

/-- Every record of the second loop names a branch of the new snapshot. -/
theorem branch_of_mem_newBranch {lk : String → String → Option Int}
    {old new : Snapshot} {r : ChangeRecord}
    (h : r ∈ newBranchRecords lk old new) : ∃ p ∈ new, r.branch = p.1 := by
  rw [newBranchRecords, List.mem_filterMap] at h
  obtain ⟨p, hp, hf⟩ := h
  by_cases hc : jsFalsy (lookupSnap old p.1)
  · simp [hc] at hf
    exact ⟨p, hp, by rw [← hf]⟩
  · simp [hc] at hf

/-- Claim C1: the spec scenario previous {main: aaa1111}, current
{main: bbb2222, dev: ccc3333} promises exactly two change entries; the
code instead returns three: the main update, and the new branch dev
twice, once from the update loop without the isNew flag and once from
the new-branch loop with it.  This theorem evaluates getChangedBranches
at that input. -/
theorem C1_eval_three_records :
    getChangedBranches lk0 [("main", "aaa1111")] [("main", "bbb2222"), ("dev", "ccc3333")] =
      [{ branch := "main", oldHash := some ("aaa1111"), newHash := "bbb2222",
         commitTime := 0, url := branchUrl ("main"), isNew := false },
       { branch := "dev", oldHash := none, newHash := "ccc3333",
         commitTime := 0, url := branchUrl ("dev"), isNew := false },
       { branch := "dev", oldHash := none, newHash := "ccc3333",
         commitTime := 0, url := branchUrl ("dev"), isNew := true }] := by
  rfl

/-- Claim C2: the spec promises exactly one entry, flagged new, for a
branch absent from the previous snapshot; the code returns two entries
for it, and only the second carries isNew = true.  This theorem
evaluates the diff of an empty previous snapshot against
{main: aaa1111}. -/
theorem C2_eval_two_records :
    getChangedBranches lk0 [] [("main", "aaa1111")] =
      [{ branch := "main", oldHash := none, newHash := "aaa1111",
         commitTime := 0, url := branchUrl ("main"), isNew := false },
       { branch := "main", oldHash := none, newHash := "aaa1111",
         commitTime := 0, url := branchUrl ("main"), isNew := true }] := by
  rfl

/-- Claim C3, counterexample: diffing a snapshot against itself is not
always empty, because an empty-string hash is falsy and the new-branch
loop re-reports it. -/
theorem C3_counterexample :
    getChangedBranches lk0 [("b", "")] [("b", "")] ≠ [] := by
  decide

/-- Claim C3, amended: for every snapshot with unique branch names and
non-empty commit identifiers, diffing it against itself yields the empty
change list. -/
theorem C3_diff_self_empty (lk : String → String → Option Int) (A : Snapshot)
    (hnd : (snapKeys A).Nodup) (hne : ∀ p ∈ A, p.2 ≠ "") :
    getChangedBranches lk A A = [] := by
  have h1 : updatedRecords lk A A = [] := by
    rw [updatedRecords, List.filterMap_eq_nil_iff]
    intro p hp
    simp [lookup_of_mem_nodup hnd hp]
  have h2 : newBranchRecords lk A A = [] := by
    rw [newBranchRecords, List.filterMap_eq_nil_iff]
    intro p hp
    simp [lookup_of_mem_nodup hnd hp, jsFalsy, beq_eq_false_iff_ne.mpr (hne p hp)]
  rw [getChangedBranches, h1, h2]
  rfl

/-- Claim C3, witness: the amended theorem applied to a concrete
two-branch snapshot. -/
theorem C3_witness :
    getChangedBranches lk0 [("main", "aaa1111"), ("dev", "ccc3333")]
      [("main", "aaa1111"), ("dev", "ccc3333")] = [] :=
  C3_diff_self_empty lk0 [("main", "aaa1111"), ("dev", "ccc3333")] (by decide) (by decide)

/-- Claim C4: a branch present in both snapshots with differing hashes
yields a change entry with isNew false and both identifiers populated
and unequal. -/
theorem C4_update_record (lk : String → String → Option Int) (old new : Snapshot)
    (b ho hn : String) (h1 : lookupSnap old b = some ho)
    (h2 : lookupSnap new b = some hn) (hne : ho ≠ hn) :
    ∃ r ∈ getChangedBranches lk old new,
      r.branch = b ∧ r.isNew = false ∧ r.oldHash = some ho ∧ r.newHash = hn ∧ ho ≠ hn := by
  have hm : (b, hn) ∈ new := mem_of_lookup h2
  have hcond : ¬lookupSnap old b = some hn := by
    rw [h1]
    simp [hne]
  refine ⟨{ branch := b, oldHash := some ho, newHash := hn,
            commitTime := getBranchCommitTime lk b hn, url := branchUrl b, isNew := false },
          ?_, rfl, rfl, rfl, rfl, hne⟩
  have hmem : ({ branch := b, oldHash := some ho, newHash := hn,
                 commitTime := getBranchCommitTime lk b hn, url := branchUrl b,
                 isNew := false } : ChangeRecord) ∈ updatedRecords lk old new := by
    rw [updatedRecords, List.mem_filterMap]
    exact ⟨(b, hn), hm, by (simp [hcond, h1]; exact hne)⟩
  exact ((List.perm_insertionSort timeLE _).mem_iff).mpr (List.mem_append_left _ hmem)

/-- Claim C4, witness: the update of main from aaa1111 to bbb2222. -/
theorem C4_witness :
    ∃ r ∈ getChangedBranches lk0 [("main", "aaa1111")] [("main", "bbb2222")],
      r.branch = "main" ∧ r.isNew = false ∧ r.oldHash = some ("aaa1111") ∧
      r.newHash = "bbb2222" ∧ "aaa1111" ≠ "bbb2222" :=
  C4_update_record lk0 [("main", "aaa1111")] [("main", "bbb2222")]
    ("main") ("aaa1111") ("bbb2222") rfl rfl (by decide)

/-- Claim C5: for every pair of snapshots and every timestamp oracle the
change list is ordered non-decreasing by resolved commit timestamp. -/
theorem C5_sorted_by_time (lk : String → String → Option Int) (old new : Snapshot) :
    List.Pairwise (fun a c : ChangeRecord => a.commitTime ≤ c.commitTime)
      (getChangedBranches lk old new) :=
  List.sorted_insertionSort timeLE _

/-- Claim C6: a timestamp-lookup failure for one branch never aborts the
diff and affects no other branch: the change list with the failing
oracle is a permutation of the original change list with exactly the
failing branch's records given the epoch-zero sentinel, and every record
of the failing branch carries the sentinel. -/
theorem C6_lookup_failure_localized (lk : String → String → Option Int)
    (b : String) (old new : Snapshot) :
    (getChangedBranches (overrideFail lk b) old new).Perm
      ((getChangedBranches lk old new).map (zeroOut b)) ∧
    ∀ r ∈ getChangedBranches (overrideFail lk b) old new,
      r.branch = b → r.commitTime = 0 := by
  have hpre : updatedRecords (overrideFail lk b) old new ++
      newBranchRecords (overrideFail lk b) old new =
      (updatedRecords lk old new ++ newBranchRecords lk old new).map (zeroOut b) := by
    rw [List.map_append, updated_override, newBranch_override]
  constructor
  · have p1 : (getChangedBranches (overrideFail lk b) old new).Perm
        ((updatedRecords lk old new ++ newBranchRecords lk old new).map (zeroOut b)) := by
      rw [getChangedBranches, hpre]
      exact List.perm_insertionSort timeLE _
    have p2 : ((getChangedBranches lk old new).map (zeroOut b)).Perm
        ((updatedRecords lk old new ++ newBranchRecords lk old new).map (zeroOut b)) :=
      (List.perm_insertionSort timeLE _).map _
    exact p1.trans p2.symm
  · intro r hr hrb
    have hr' : r ∈ (updatedRecords lk old new ++
        newBranchRecords lk old new).map (zeroOut b) := by
      rw [← hpre]
      exact ((List.perm_insertionSort timeLE _).mem_iff).mp hr
    obtain ⟨r₀, _, rfl⟩ := List.mem_map.mp hr'
    by_cases h0 : r₀.branch = b
    · simp [zeroOut, h0]
    · rw [zeroOut, if_neg h0] at hrb ⊢
      exact absurd hrb h0

/-- Claim C6, witness: the localization theorem at a two-branch diff
with the lookup for dev failing. -/
theorem C6_witness :
    (getChangedBranches (overrideFail lk1 ("dev")) [("main", "aaa1111")]
      [("main", "bbb2222"), ("dev", "ccc3333")]).Perm
      ((getChangedBranches lk1 [("main", "aaa1111")]
        [("main", "bbb2222"), ("dev", "ccc3333")]).map (zeroOut ("dev"))) ∧
    ∀ r ∈ getChangedBranches (overrideFail lk1 ("dev")) [("main", "aaa1111")]
        [("main", "bbb2222"), ("dev", "ccc3333")],
      r.branch = "dev" → r.commitTime = 0 :=
  C6_lookup_failure_localized lk1 ("dev") [("main", "aaa1111")]
    [("main", "bbb2222"), ("dev", "ccc3333")]

/-- Claim C7: when the fetched snapshot text equals the persisted one the
run short-circuits: no clone is attempted, the snapshot file is not
rewritten, and no notification is sent. -/
theorem C7_short_circuit (lk : String → String → Option Int) (fmt : Int → String)
    (mr : Except String Unit) (t : String) :
    mainModel lk fmt (Except.ok t) mr t =
      { mirrorAttempted := false, persisted := none, sentMessages := [], exitCode := 0 } := by
  simp [mainModel]

/-- Claim C8: both fatal errors, a remote listing failure and a
mirror-clone failure, exit non-zero, leave the persisted snapshot
unwritten, and send a failure notification containing the error
description. -/
theorem C8_fatal_error_handling :
    (∀ (lk : String → String → Option Int) (fmt : Int → String)
        (mr : Except String Unit) (lastText e : String),
        (mainModel lk fmt (Except.error e) mr lastText).exitCode ≠ 0 ∧
        (mainModel lk fmt (Except.error e) mr lastText).persisted = none ∧
        failureMessage e ∈ (mainModel lk fmt (Except.error e) mr lastText).sentMessages ∧
        ∃ s, failureMessage e = s ++ e) ∧
    (∀ (lk : String → String → Option Int) (fmt : Int → String)
        (lastText latestText e : String) (oc nc : Snapshot),
        latestText ≠ lastText →
        parsePrevious lastText = Except.ok oc →
        parseCommitsData latestText = Except.ok nc →
        (mainModel lk fmt (Except.ok latestText) (Except.error e) lastText).exitCode ≠ 0 ∧
        (mainModel lk fmt (Except.ok latestText) (Except.error e) lastText).persisted = none ∧
        failureMessage e ∈
          (mainModel lk fmt (Except.ok latestText) (Except.error e) lastText).sentMessages) := by
  constructor
  · intro lk fmt mr lastText e
    refine ⟨by simp [mainModel], by simp [mainModel], by simp [mainModel], "❌ 同步失败: ", rfl⟩
  · intro lk fmt lastText latestText e oc nc hne hoc hnc
    have hbeq : (latestText == lastText) = false := beq_eq_false_iff_ne.mpr hne
    refine ⟨?_, ?_, ?_⟩ <;> simp [mainModel, hbeq, hoc, hnc]

/-- Claim C8, witness: a listing failure on any state, and a clone
failure on a first run fetching one branch. -/
theorem C8_witness :
    ((mainModel lk0 fmt0 (Except.error ("boom")) (Except.ok ()) ("x")).exitCode ≠ 0 ∧
     (mainModel lk0 fmt0 (Except.error ("boom")) (Except.ok ()) ("x")).persisted = none ∧
     failureMessage ("boom") ∈
       (mainModel lk0 fmt0 (Except.error ("boom")) (Except.ok ()) ("x")).sentMessages ∧
     ∃ s, failureMessage ("boom") = s ++ "boom") ∧
    ((mainModel lk0 fmt0 (Except.ok ("h\trefs/heads/m")) (Except.error ("boom")) ("")).exitCode ≠ 0 ∧
     (mainModel lk0 fmt0 (Except.ok ("h\trefs/heads/m")) (Except.error ("boom")) ("")).persisted = none ∧
     failureMessage ("boom") ∈
       (mainModel lk0 fmt0 (Except.ok ("h\trefs/heads/m")) (Except.error ("boom")) ("")).sentMessages) :=
  ⟨C8_fatal_error_handling.1 lk0 fmt0 (Except.ok ()) ("x") ("boom"),
   C8_fatal_error_handling.2 lk0 fmt0 ("") ("h\trefs/heads/m") ("boom") [] [("m", "h")]
     (by decide) rfl rfl⟩

/-- Claim C9: every change-list entry names a branch of the current
snapshot, so branches only present in the previous snapshot (deleted
branches) never appear. -/
theorem C9_branches_from_new_snapshot (lk : String → String → Option Int)
    (old new : Snapshot) (r : ChangeRecord)
    (hr : r ∈ getChangedBranches lk old new) : r.branch ∈ snapKeys new := by
  have hr' : r ∈ updatedRecords lk old new ++ newBranchRecords lk old new :=
    ((List.perm_insertionSort timeLE _).mem_iff).mp hr
  rcases List.mem_append.mp hr' with h | h
  · obtain ⟨p, hp, hb⟩ := branch_of_mem_updated h
    rw [hb]
    exact List.mem_map_of_mem Prod.fst hp
  · obtain ⟨p, hp, hb⟩ := branch_of_mem_newBranch h
    rw [hb]
    exact List.mem_map_of_mem Prod.fst hp

/-- Claim C9, witness: the first record of a first-run diff names a key
of the current snapshot. -/
theorem C9_witness :
    ({ branch := "main", oldHash := none, newHash := "aaa1111", commitTime := 0,
       url := branchUrl ("main"), isNew := false } : ChangeRecord).branch ∈
      snapKeys [("main", "aaa1111")] :=
  C9_branches_from_new_snapshot lk0 [] [("main", "aaa1111")]
    { branch := "main", oldHash := none, newHash := "aaa1111", commitTime := 0,
      url := branchUrl ("main"), isNew := false } (by decide)

/-- Claim C10: when every non-blank line contains a tab, parseCommitsData
returns normally with unique branch keys bound, per branch, to the hash
of its last line; parsing depends only on the non-blank lines; and a
non-blank line without a tab makes it throw. -/
theorem C10_parse_behavior :
    (∀ text : String,
        (∀ l ∈ chSplit ('\n') text.data, chTrim l ≠ [] → ('\t') ∈ l) →
        ∃ m, parseCommitsData text = Except.ok m ∧
          (snapKeys m).Nodup ∧
          ∀ b, lookupSnap m b =
            lastFor (((chSplit ('\n') text.data).filter
              (fun l => !(chTrim l).isEmpty)).filterMap parseLine) b) ∧
    (∀ t₁ t₂ : String,
        (chSplit ('\n') t₁.data).filter (fun l => !(chTrim l).isEmpty) =
          (chSplit ('\n') t₂.data).filter (fun l => !(chTrim l).isEmpty) →
        parseCommitsData t₁ = parseCommitsData t₂) ∧
    ((∃ l ∈ chSplit ('\n') ("abc").data, chTrim l ≠ [] ∧ ('\t') ∉ l) ∧
      parseCommitsData ("abc") = Except.error ()) := by
  refine ⟨?_, ?_, ⟨by decide, rfl⟩⟩
  · intro text h
    have hl : ∀ l ∈ (chSplit ('\n') text.data).filter (fun l => !(chTrim l).isEmpty),
        (parseLine l).isSome := by
      intro l hlmem
      rw [List.mem_filter] at hlmem
      obtain ⟨hmem, htr⟩ := hlmem
      have htr' : chTrim l ≠ [] := by
        intro hnil
        rw [hnil] at htr
        simp at htr
      exact parseLine_isSome_of_tab (h l hmem htr')
    refine ⟨insertAll [] (((chSplit ('\n') text.data).filter
        (fun l => !(chTrim l).isEmpty)).filterMap parseLine),
      parse_fold _ [] hl, nodup_snapKeys_insertAll _ [] (by simp [snapKeys]), ?_⟩
    intro b
    rw [lookup_insertAll]
    simp [lookupSnap, Option.or_none]
  · intro t₁ t₂ h
    rw [parseCommitsData, parseCommitsData, h]

/-- Claim C10, witness: a two-line listing naming the same branch twice
parses to a single binding, the one of the last line. -/
theorem C10_witness :
    ∃ m, parseCommitsData ("aaa\trefs/heads/main\nbbb\trefs/heads/main") = Except.ok m ∧
      (snapKeys m).Nodup ∧
      ∀ b, lookupSnap m b =
        lastFor (((chSplit ('\n') ("aaa\trefs/heads/main\nbbb\trefs/heads/main").data).filter
          (fun l => !(chTrim l).isEmpty)).filterMap parseLine) b :=
  C10_parse_behavior.1 ("aaa\trefs/heads/main\nbbb\trefs/heads/main") (by decide)
